import Mathlib

/-!
# GoShop Inventory Stock Ledger — verification development

Shallow embedding of the inventory subsystem of the `goshop` repository.

The repository's `services/inventory/internal/model/inventory.go` declares the
persistent data model (`SKUStock`, `StockMovement`, `StockAlert`, enumerations
for operations / sources / strategies, and gorm column defaults).  The ledger
and reservation *operations* themselves are described by the design spec and
have no implementation under the source tree; where an operation is needed it
is modelled from the spec and marked `Modelled from the spec:` in its doc
comment.  Data types are translated directly from the Go declarations.

Conventions: Go `int` is `Int`; Go `uint` keys are `Nat`; Go `string` is
`String`; Go `*T` is `Option T`; `time.Time` fields, which no modelled
operation reads, are omitted.
-/

namespace GoShop

/-- `StockOperation` from inventory.go: the seven stock operation kinds
(`initial`, `increase`, `decrease`, `hold`, `release`, `confirm`, `adjust`). -/
inductive StockOperation where
  | initial
  | increase
  | decrease
  | hold
  | release
  | confirm
  | adjust
deriving DecidableEq, Repr

/-- `InventoryActionSource` from inventory.go: `order`, `manual`, `system`, `api`. -/
inductive InventoryActionSource where
  | order
  | manual
  | system
  | api
deriving DecidableEq, Repr

/-- `SKUStock` from inventory.go.  `stockStrategy` and `stockStatus` are kept as
strings exactly as in the Go struct (`StockStrategy` is a string type there);
gorm-managed timestamp columns are omitted. -/
structure SKUStock where
  id : Nat
  skuID : Nat
  availableStock : Int
  holdStock : Int
  stockStrategy : String
  lowStockAlert : Int
  isInfinite : Bool
  warehouseID : Option Nat
  stockStatus : String
deriving DecidableEq, Repr

/-- The Go zero value of `SKUStock` for a given SKU and counters: every field
not explicitly set by the creator is the Go zero value (`""`, `0`, `false`,
`nil`), which is what gorm sees at insert time when the optional columns were
left unspecified. -/
def goZeroSKUStock (sku : Nat) (avail held : Int) : SKUStock :=
  { id := 0
    skuID := sku
    availableStock := avail
    holdStock := held
    stockStrategy := ""
    lowStockAlert := 0
    isInfinite := false
    warehouseID := none
    stockStatus := "" }

/-- The gorm column defaults declared on `SKUStock` in inventory.go:
`stock_strategy default:'payment'`, `low_stock_alert default:10`,
`is_infinite default:false`, `stock_status default:'in_stock'`.  A column whose
field still holds the Go zero value at insert time receives its declared
default. -/
def applyColumnDefaults (s : SKUStock) : SKUStock :=
  { s with
    stockStrategy := if s.stockStrategy = "" then "payment" else s.stockStrategy
    lowStockAlert := if s.lowStockAlert = 0 then 10 else s.lowStockAlert
    isInfinite := if s.isInfinite = false then false else s.isInfinite
    stockStatus := if s.stockStatus = "" then "in_stock" else s.stockStatus }

/-- `StockMovement` from inventory.go: one append-only row per stock mutation.
`id` is the auto-increment primary key and serves as the sequence id.  Note the
struct carries exactly two counter snapshots, `beforeStock` and `afterStock`
(操作前库存 / 操作后库存). -/
structure StockMovement where
  id : Nat
  skuID : Nat
  quantity : Int
  operation : StockOperation
  beforeStock : Int
  afterStock : Int
  source : InventoryActionSource
  referenceID : Option String
  referenceType : Option String
  note : Option String
  operatorID : Option Nat
  warehouseID : Option Nat
deriving DecidableEq, Repr

/-! ## Stock ledger state

Modelled from the spec: the `StockLedger` component (§4.1) and the
`MovementRecorder` (§4.3) are described by the spec only; no implementation
exists in the source tree.  Per-SKU records are the source `SKUStock` rows,
outstanding holds realise the spec's dedup key `(skuID, referenceID,
operation)` and `ReservationNotFound` checks, and every mutation appends one
source-shaped `StockMovement` row in the same atomic step. -/

/-- Modelled from the spec: an outstanding Hold, the book-keeping behind the
Hold dedup key `(skuID, referenceID)` and the `ReservationNotFound` failure of
`Release`/`Confirm`. -/
structure HoldEntry where
  skuID : Nat
  referenceID : String
  qty : Nat
deriving DecidableEq, Repr

/-- Modelled from the spec: ledger error taxonomy (§7) restricted to the
single-SKU ledger operations. -/
inductive LedgerError where
  | alreadyInitialized
  | outOfStock
  | stockNotFound
  | reservationNotFound
  | negativeStockRejected
deriving DecidableEq, Repr

/-- Modelled from the spec: the state owned by StockLedger + MovementRecorder:
per-SKU `SKUStock` records keyed by skuID, the outstanding holds, and the
append-only movement log (ids ascending in append order). -/
structure LedgerState where
  records : List (Nat × SKUStock)
  holds : List HoldEntry
  movements : List StockMovement
deriving DecidableEq, Repr

/-- Look up the `SKUStock` record for a SKU. -/
def lookupSKU : List (Nat × SKUStock) → Nat → Option SKUStock
  | [], _ => none
  | (k, r) :: rest, sku => if k = sku then some r else lookupSKU rest sku

/-- Replace the record stored under a key (no-op when the key is absent). -/
def updateSKU : List (Nat × SKUStock) → Nat → SKUStock → List (Nat × SKUStock)
  | [], _, _ => []
  | (k, r) :: rest, sku, r' =>
    if k = sku then (k, r') :: rest else (k, r) :: updateSKU rest sku r'

/-- First outstanding hold matching `(skuID, referenceID)`. -/
def findHold : List HoldEntry → Nat → String → Option HoldEntry
  | [], _, _ => none
  | h :: rest, sku, ref =>
    if h.skuID = sku ∧ h.referenceID = ref then some h else findHold rest sku ref

/-- Remove quantity `q` from the first hold matching `(skuID, referenceID)`,
dropping the entry when it is fully consumed. -/
def consumeHold : List HoldEntry → Nat → String → Nat → List HoldEntry
  | [], _, _, _ => []
  | h :: rest, sku, ref, q =>
    if h.skuID = sku ∧ h.referenceID = ref then
      if h.qty = q then rest else ⟨sku, ref, h.qty - q⟩ :: rest
    else h :: consumeHold rest sku ref q

/-- The fresh movement row appended by a mutation: primary key = position in
the append-only log, counter snapshots = the available counter before/after
(the struct's single `beforeStock`/`afterStock` pair). -/
def mkMovement (s : LedgerState) (sku : Nat) (qty : Int) (op : StockOperation)
    (before after : Int) (src : InventoryActionSource) (ref : Option String) :
    StockMovement :=
  { id := s.movements.length + 1
    skuID := sku
    quantity := qty
    operation := op
    beforeStock := before
    afterStock := after
    source := src
    referenceID := ref
    referenceType := none
    note := none
    operatorID := none
    warehouseID := none }

/-- Modelled from the spec: `Initialize(skuID, initialQty, strategy,
isUnlimited)` — fails with `AlreadyInitialized` if a record exists; otherwise
creates the record (remaining columns take their gorm defaults) and appends the
`initial` movement. -/
def initStockOp (s : LedgerState) (sku qty : Nat) (strategy : String)
    (unlimited : Bool) : Except LedgerError LedgerState :=
  match lookupSKU s.records sku with
  | some _ => .error .alreadyInitialized
  | none =>
    let r : SKUStock :=
      applyColumnDefaults
        { goZeroSKUStock sku (qty : Int) 0 with
          stockStrategy := strategy, isInfinite := unlimited }
    .ok { records := (sku, r) :: s.records
          holds := s.holds
          movements :=
            s.movements ++
              [mkMovement s sku (qty : Int) .initial 0 (qty : Int) .system none] }

/-- Modelled from the spec: `Hold(skuID, qty, referenceID)` — moves `qty` from
available to held.  Fails with `OutOfStock` when `availableStock < qty` and the
record is not unlimited.  Idempotent: a hold with the same `(skuID,
referenceID)` already outstanding returns the prior result without
double-applying; the returned flag is `true` exactly when the hold was applied
(not deduplicated). -/
def holdOp (s : LedgerState) (sku q : Nat) (ref : String) :
    Except LedgerError (LedgerState × Bool) :=
  match lookupSKU s.records sku with
  | none => .error .stockNotFound
  | some r =>
    match findHold s.holds sku ref with
    | some _ => .ok (s, false)
    | none =>
      if r.isInfinite = false ∧ r.availableStock < (q : Int) then
        .error .outOfStock
      else
        let r' := { r with availableStock := r.availableStock - (q : Int)
                           holdStock := r.holdStock + (q : Int) }
        .ok ({ records := updateSKU s.records sku r'
               holds := ⟨sku, ref, q⟩ :: s.holds
               movements :=
                 s.movements ++
                   [mkMovement s sku (-(q : Int)) .hold r.availableStock
                     r'.availableStock .order (some ref)] },
             true)

/-- Modelled from the spec: `Release(skuID, qty, referenceID)` — inverse of
Hold: restores `qty` from held to available.  Fails with `ReservationNotFound`
when no outstanding hold for `(skuID, referenceID)` covers `qty`. -/
def releaseOp (s : LedgerState) (sku q : Nat) (ref : String) :
    Except LedgerError LedgerState :=
  match findHold s.holds sku ref with
  | none => .error .reservationNotFound
  | some h =>
    if h.qty < q then .error .reservationNotFound
    else
      match lookupSKU s.records sku with
      | none => .error .stockNotFound
      | some r =>
        let r' := { r with availableStock := r.availableStock + (q : Int)
                           holdStock := r.holdStock - (q : Int) }
        .ok { records := updateSKU s.records sku r'
              holds := consumeHold s.holds sku ref q
              movements :=
                s.movements ++
                  [mkMovement s sku (q : Int) .release r.availableStock
                    r'.availableStock .order (some ref)] }

/-- Modelled from the spec: `Confirm(skuID, qty, referenceID)` — consumes held
stock permanently: reduces `holdStock` by `qty` without restoring
`availableStock`.  Fails with `ReservationNotFound` under the same condition
as Release. -/
def confirmOp (s : LedgerState) (sku q : Nat) (ref : String) :
    Except LedgerError LedgerState :=
  match findHold s.holds sku ref with
  | none => .error .reservationNotFound
  | some h =>
    if h.qty < q then .error .reservationNotFound
    else
      match lookupSKU s.records sku with
      | none => .error .stockNotFound
      | some r =>
        let r' := { r with holdStock := r.holdStock - (q : Int) }
        .ok { records := updateSKU s.records sku r'
              holds := consumeHold s.holds sku ref q
              movements :=
                s.movements ++
                  [mkMovement s sku (-(q : Int)) .confirm r.availableStock
                    r'.availableStock .order (some ref)] }

/-- Modelled from the spec: `Adjust(skuID, delta, source, note)` — signed direct
correction of `availableStock`; fails with `NegativeStockRejected` if it would
drive the counter below 0 and the record is not unlimited. -/
def adjustOp (s : LedgerState) (sku : Nat) (delta : Int)
    (src : InventoryActionSource) : Except LedgerError LedgerState :=
  match lookupSKU s.records sku with
  | none => .error .stockNotFound
  | some r =>
    if r.isInfinite = false ∧ r.availableStock + delta < 0 then
      .error .negativeStockRejected
    else
      let r' := { r with availableStock := r.availableStock + delta }
      .ok { records := updateSKU s.records sku r'
            holds := s.holds
            movements :=
              s.movements ++
                [mkMovement s sku delta .adjust r.availableStock
                  r'.availableStock src none] }

/-- Modelled from the spec: the ledger operation alphabet, for reasoning about
arbitrary operation sequences. -/
inductive LedgerOp where
  | initStock (sku qty : Nat) (strategy : String) (unlimited : Bool)
  | hold (sku q : Nat) (ref : String)
  | release (sku q : Nat) (ref : String)
  | confirm (sku q : Nat) (ref : String)
  | adjust (sku : Nat) (delta : Int) (src : InventoryActionSource)
deriving DecidableEq, Repr

/-- Dispatch one ledger operation. -/
def applyOp (s : LedgerState) : LedgerOp → Except LedgerError LedgerState
  | .initStock sku qty strategy unlimited => initStockOp s sku qty strategy unlimited
  | .hold sku q ref => (holdOp s sku q ref).map (·.1)
  | .release sku q ref => releaseOp s sku q ref
  | .confirm sku q ref => confirmOp s sku q ref
  | .adjust sku delta src => adjustOp s sku delta src

/-- One step: a failed operation leaves the state unchanged. -/
def stepOp (s : LedgerState) (op : LedgerOp) : LedgerState :=
  match applyOp s op with
  | .ok s' => s'
  | .error _ => s

/-- Run a sequence of ledger operations. -/
def runOps (s : LedgerState) (ops : List LedgerOp) : LedgerState :=
  ops.foldl stepOp s

/-- The empty ledger. -/
def initialLedger : LedgerState := { records := [], holds := [], movements := [] }

/-! ## Replay and invariants -/

/-- Total quantity of outstanding holds for one SKU. -/
def heldSum : List HoldEntry → Nat → Int
  | [], _ => 0
  | h :: rest, sku => (if h.skuID = sku then (h.qty : Int) else 0) + heldSum rest sku

/-- The `(availableStock, holdStock)` pair the ledger currently stores for a
SKU; `(0, 0)` when the SKU was never initialized. -/
def counters (s : LedgerState) (sku : Nat) : Int × Int :=
  match lookupSKU s.records sku with
  | some r => (r.availableStock, r.holdStock)
  | none => (0, 0)

/-- The movement rows for one SKU, in log (= ascending id) order. -/
def movementsFor (s : LedgerState) (sku : Nat) : List StockMovement :=
  s.movements.filter (fun m => m.skuID == sku)

/-- Modelled from the spec: how one movement row transforms the
`(available, held)` pair during `Replay` — `quantityDelta` is signed, and for
`hold`/`release` the same quantity leaves one counter and enters the other,
while `confirm` only consumes held stock. -/
def movApply (st : Int × Int) (m : StockMovement) : Int × Int :=
  match m.operation with
  | .hold => (st.1 + m.quantity, st.2 - m.quantity)
  | .release => (st.1 + m.quantity, st.2 - m.quantity)
  | .confirm => (st.1, st.2 + m.quantity)
  | _ => (st.1 + m.quantity, st.2)

/-- Modelled from the spec: `Replay` — fold the movement rows from the initial
value `(0, 0)`. -/
def replay (ms : List StockMovement) : Int × Int := ms.foldl movApply (0, 0)

/-- Ledger record invariant: non-unlimited records have a non-negative available
counter, every record's held counter equals the outstanding holds for its SKU,
and holds only exist for initialized SKUs. -/
def RecordsGood (s : LedgerState) : Prop :=
  (∀ sku r, lookupSKU s.records sku = some r →
    (r.isInfinite = false → 0 ≤ r.availableStock) ∧ r.holdStock = heldSum s.holds sku)
  ∧ ∀ h ∈ s.holds, (lookupSKU s.records h.skuID).isSome = true

/-- Movement-log invariant: replaying each SKU's movements reproduces the
ledger's current counters. -/
def ReplayGood (s : LedgerState) : Prop :=
  ∀ sku, replay (movementsFor s sku) = counters s sku

/-- Sequence-id invariant: ids are bounded by the log length and strictly
ascending in log order. -/
def SeqGood (s : LedgerState) : Prop :=
  (∀ m ∈ s.movements, m.id ≤ s.movements.length)
  ∧ s.movements.Pairwise (fun a b => a.id < b.id)

/-- All ledger invariants together. -/
def Good (s : LedgerState) : Prop := RecordsGood s ∧ ReplayGood s ∧ SeqGood s

theorem heldSum_nonneg (hs : List HoldEntry) (sku : Nat) : 0 ≤ heldSum hs sku := by
  induction hs with
  | nil => simp [heldSum]
  | cons h rest ih =>
    simp only [heldSum]
    have : (0 : Int) ≤ if h.skuID = sku then (h.qty : Int) else 0 := by positivity
    omega

theorem heldSum_eq_zero (hs : List HoldEntry) (sku : Nat)
    (hnone : ∀ h ∈ hs, h.skuID ≠ sku) : heldSum hs sku = 0 := by
  induction hs with
  | nil => rfl
  | cons h rest ih =>
    simp only [heldSum, hnone h (by simp), if_false]
    simpa using ih fun h' hh' => hnone h' (by simp [hh'])

theorem lookupSKU_updateSKU (l : List (Nat × SKUStock)) (k : Nat) (v : SKUStock)
    (k' : Nat) :
    lookupSKU (updateSKU l k v) k' =
      if k' = k then (lookupSKU l k).map (fun _ => v) else lookupSKU l k' := by
  induction l with
  | nil => simp [updateSKU, lookupSKU]
  | cons p rest ih =>
    obtain ⟨a, r⟩ := p
    by_cases hak : a = k
    · subst hak
      by_cases hk' : a = k'
      · subst hk'; simp [updateSKU, lookupSKU]
      · have h1 : ¬ k' = a := fun h => hk' h.symm
        simp [updateSKU, lookupSKU, hk', h1]
    · by_cases hak' : a = k'
      · subst hak'
        have h2 : ¬ k = a := fun h => hak h.symm
        simp [updateSKU, lookupSKU, hak, h2]
      · have h1 : ¬ k' = a := fun h => hak' h.symm
        simp [updateSKU, lookupSKU, hak, hak', h1, ih]

theorem findHold_spec (hs : List HoldEntry) (sku : Nat) (ref : String)
    (h : HoldEntry) (hf : findHold hs sku ref = some h) :
    h ∈ hs ∧ h.skuID = sku ∧ h.referenceID = ref := by
  induction hs with
  | nil => simp [findHold] at hf
  | cons h0 rest ih =>
    simp only [findHold] at hf
    split at hf
    · next hcond =>
      obtain rfl : h0 = h := by simpa using hf
      exact ⟨by simp, hcond.1, hcond.2⟩
    · obtain ⟨hm, h1, h2⟩ := ih hf
      exact ⟨by simp [hm], h1, h2⟩

theorem heldSum_consumeHold (hs : List HoldEntry) (sku : Nat) (ref : String)
    (q : Nat) (h : HoldEntry) (hf : findHold hs sku ref = some h)
    (hq : q ≤ h.qty) (sku' : Nat) :
    heldSum (consumeHold hs sku ref q) sku' =
      heldSum hs sku' - (if sku' = sku then (q : Int) else 0) := by
  induction hs with
  | nil => simp [findHold] at hf
  | cons h0 rest ih =>
    simp only [findHold] at hf
    simp only [consumeHold]
    by_cases hcond : h0.skuID = sku ∧ h0.referenceID = ref
    · rw [if_pos hcond] at hf ⊢
      have he : h = h0 := (Option.some.inj hf).symm
      subst he
      obtain ⟨hsku, -⟩ := hcond
      by_cases hs' : sku' = sku
      · subst hs'
        have hsk : h.skuID = sku' := hsku
        by_cases hqe : h.qty = q
        · rw [if_pos hqe]
          simp only [heldSum, hsk, ite_true, eq_self_iff_true]
          omega
        · rw [if_neg hqe]
          simp only [heldSum, hsk, ite_true, eq_self_iff_true]
          omega
      · have hns : ¬ h.skuID = sku' := by
          rw [hsku]; exact fun hh => hs' hh.symm
        by_cases hqe : h.qty = q
        · rw [if_pos hqe]
          simp only [heldSum, if_neg hns, if_neg hs']
          omega
        · rw [if_neg hqe]
          have hns2 : ¬ (HoldEntry.mk sku ref (h.qty - q)).skuID = sku' :=
            fun hh => hs' hh.symm
          simp only [heldSum, if_neg hns, if_neg hs', if_neg hns2]
          omega
    · rw [if_neg hcond] at hf ⊢
      rw [heldSum, heldSum, ih hf, add_sub_assoc]

theorem consumeHold_mem (hs : List HoldEntry) (sku : Nat) (ref : String)
    (q : Nat) : ∀ h' ∈ consumeHold hs sku ref q, h'.skuID = sku ∨ h' ∈ hs := by
  induction hs with
  | nil => simp [consumeHold]
  | cons h0 rest ih =>
    intro h' hh'
    simp only [consumeHold] at hh'
    split at hh'
    · split at hh'
      · exact Or.inr (by simp [hh'])
      · rcases List.mem_cons.mp hh' with rfl | hmem
        · exact Or.inl rfl
        · exact Or.inr (by simp [hmem])
    · rcases List.mem_cons.mp hh' with rfl | hmem
      · exact Or.inr (by simp)
      · rcases ih h' hmem with hsk | hmem2
        · exact Or.inl hsk
        · exact Or.inr (by simp [hmem2])

theorem replay_append_single (l : List StockMovement) (m : StockMovement) :
    replay (l ++ [m]) = movApply (replay l) m := by
  simp [replay, List.foldl_append]

theorem seqGood_append {s : LedgerState} (hs : SeqGood s) {s' : LedgerState}
    {m : StockMovement} (hm : s'.movements = s.movements ++ [m])
    (hid : m.id = s.movements.length + 1) : SeqGood s' := by
  obtain ⟨hbound, hpw⟩ := hs
  constructor
  · intro m' hm'
    rw [hm] at hm' ⊢
    rcases List.mem_append.mp hm' with hmem | hmem
    · have := hbound m' hmem
      simp only [List.length_append, List.length_cons, List.length_nil]
      omega
    · obtain rfl : m' = m := by simpa using hmem
      simp only [List.length_append, List.length_cons, List.length_nil]
      omega
  · rw [hm]
    refine List.pairwise_append.mpr ⟨hpw, by simp, ?_⟩
    intro a ha b hb
    obtain rfl : b = m := by simpa using hb
    have := hbound a ha
    omega

theorem replayGood_append {s : LedgerState} (hr : ReplayGood s) {s' : LedgerState}
    {m : StockMovement} (hm : s'.movements = s.movements ++ [m])
    (hc : ∀ sku, counters s' sku =
      if m.skuID = sku then movApply (counters s sku) m else counters s sku) :
    ReplayGood s' := by
  intro sku
  have hfor : movementsFor s' sku =
      movementsFor s sku ++ if m.skuID = sku then [m] else [] := by
    simp only [movementsFor, hm, List.filter_append]
    congr 1
    by_cases hsku : m.skuID = sku
    · simp [List.filter_cons, hsku]
    · simp [List.filter_cons, hsku]
  rw [hfor, hc]
  by_cases hsku : m.skuID = sku
  · rw [if_pos hsku, if_pos hsku, replay_append_single, hr]
  · rw [if_neg hsku, if_neg hsku, List.append_nil, hr]

theorem good_hold (s : LedgerState) (sku q : Nat) (ref : String) (hg : Good s) :
    Good (stepOp s (.hold sku q ref)) := by
  obtain ⟨⟨hrec, hholds⟩, hrep, hseq⟩ := hg
  cases hlook : lookupSKU s.records sku with
  | none =>
    simp only [stepOp, applyOp, holdOp, hlook, Except.map]
    exact ⟨⟨hrec, hholds⟩, hrep, hseq⟩
  | some r =>
    cases hfind : findHold s.holds sku ref with
    | some h =>
      simp only [stepOp, applyOp, holdOp, hlook, hfind, Except.map]
      exact ⟨⟨hrec, hholds⟩, hrep, hseq⟩
    | none =>
      by_cases hguard : r.isInfinite = false ∧ r.availableStock < (q : Int)
      · simp only [stepOp, applyOp, holdOp, hlook, hfind, if_pos hguard, Except.map]
        exact ⟨⟨hrec, hholds⟩, hrep, hseq⟩
      · have hstep : stepOp s (.hold sku q ref) =
            { records := updateSKU s.records sku
                { r with availableStock := r.availableStock - (q : Int)
                         holdStock := r.holdStock + (q : Int) }
              holds := ⟨sku, ref, q⟩ :: s.holds
              movements := s.movements ++
                [mkMovement s sku (-(q : Int)) .hold r.availableStock
                  (r.availableStock - (q : Int)) .order (some ref)] } := by
          simp only [stepOp, applyOp, holdOp, hlook, hfind, if_neg hguard, Except.map]
        rw [hstep]
        obtain ⟨hr1, hr2⟩ := hrec sku r hlook
        refine ⟨⟨?_, ?_⟩, ?_, ?_⟩
        · intro sku' r'' hl''
          rw [lookupSKU_updateSKU] at hl''
          by_cases hs' : sku' = sku
          · rw [if_pos hs', hlook] at hl''
            obtain rfl : _ = r'' := Option.some.inj hl''
            subst hs'
            constructor
            · intro hinf
              have hge : ¬ r.availableStock < (q : Int) := fun hlt => hguard ⟨hinf, hlt⟩
              simp only at hge ⊢
              omega
            · simp only [heldSum, ite_true, eq_self_iff_true]
              omega
          · rw [if_neg hs'] at hl''
            obtain ⟨hn1, hn2⟩ := hrec sku' r'' hl''
            refine ⟨hn1, ?_⟩
            have hneq : ¬ (HoldEntry.mk sku ref q).skuID = sku' := fun hh => hs' hh.symm
            simp only [heldSum, if_neg hneq]
            omega
        · intro h hh
          rcases List.mem_cons.mp hh with rfl | hmem
          · simp [lookupSKU_updateSKU, hlook]
          · rw [lookupSKU_updateSKU]
            by_cases hs' : h.skuID = sku
            · rw [if_pos hs', hlook]; rfl
            · rw [if_neg hs']; exact hholds h hmem
        · refine replayGood_append hrep rfl ?_
          intro sku'
          simp only [counters, lookupSKU_updateSKU, mkMovement]
          by_cases hs' : sku = sku'
          · subst hs'
            rw [if_pos rfl, if_pos rfl, hlook]
            simp only [Option.map_some', movApply, Prod.mk.injEq]
            omega
          · have hs'' : ¬ sku' = sku := fun hh => hs' hh.symm
            rw [if_neg hs'', if_neg hs']
        · exact seqGood_append hseq rfl rfl

theorem good_release (s : LedgerState) (sku q : Nat) (ref : String) (hg : Good s) :
    Good (stepOp s (.release sku q ref)) := by
  obtain ⟨⟨hrec, hholds⟩, hrep, hseq⟩ := hg
  cases hfind : findHold s.holds sku ref with
  | none =>
    simp only [stepOp, applyOp, releaseOp, hfind]
    exact ⟨⟨hrec, hholds⟩, hrep, hseq⟩
  | some h =>
    by_cases hlt : h.qty < q
    · simp only [stepOp, applyOp, releaseOp, hfind, if_pos hlt]
      exact ⟨⟨hrec, hholds⟩, hrep, hseq⟩
    · cases hlook : lookupSKU s.records sku with
      | none =>
        simp only [stepOp, applyOp, releaseOp, hfind, if_neg hlt, hlook]
        exact ⟨⟨hrec, hholds⟩, hrep, hseq⟩
      | some r =>
        have hqle : q ≤ h.qty := Nat.le_of_not_lt hlt
        have hsum := heldSum_consumeHold s.holds sku ref q h hfind hqle
        obtain ⟨hr1, hr2⟩ := hrec sku r hlook
        have hstep : stepOp s (.release sku q ref) =
            { records := updateSKU s.records sku
                { r with availableStock := r.availableStock + (q : Int)
                         holdStock := r.holdStock - (q : Int) }
              holds := consumeHold s.holds sku ref q
              movements := s.movements ++
                [mkMovement s sku (q : Int) .release r.availableStock
                  (r.availableStock + (q : Int)) .order (some ref)] } := by
          simp only [stepOp, applyOp, releaseOp, hfind, if_neg hlt, hlook]
        rw [hstep]
        refine ⟨⟨?_, ?_⟩, ?_, ?_⟩
        · intro sku' r'' hl''
          rw [lookupSKU_updateSKU] at hl''
          by_cases hs' : sku' = sku
          · rw [if_pos hs', hlook] at hl''
            obtain rfl : _ = r'' := Option.some.inj hl''
            subst hs'
            refine ⟨?_, ?_⟩
            · intro hinf
              have := hr1 hinf
              simp only at this ⊢
              omega
            · rw [hsum]
              simp only [ite_true, eq_self_iff_true]
              omega
          · rw [if_neg hs'] at hl''
            obtain ⟨hn1, hn2⟩ := hrec sku' r'' hl''
            refine ⟨hn1, ?_⟩
            rw [hsum, if_neg hs']
            omega
        · intro h' hh'
          rw [lookupSKU_updateSKU]
          by_cases hs' : h'.skuID = sku
          · rw [if_pos hs', hlook]; rfl
          · rw [if_neg hs']
            rcases consumeHold_mem s.holds sku ref q h' hh' with hsk | hmem
            · exact absurd hsk hs'
            · exact hholds h' hmem
        · refine replayGood_append hrep rfl ?_
          intro sku'
          simp only [counters, lookupSKU_updateSKU, mkMovement]
          by_cases hs' : sku = sku'
          · subst hs'
            rw [if_pos rfl, if_pos rfl, hlook]
            simp only [Option.map_some', movApply, Prod.mk.injEq]
          · have hs'' : ¬ sku' = sku := fun hh => hs' hh.symm
            rw [if_neg hs'', if_neg hs']
        · exact seqGood_append hseq rfl rfl

theorem good_confirm (s : LedgerState) (sku q : Nat) (ref : String) (hg : Good s) :
    Good (stepOp s (.confirm sku q ref)) := by
  obtain ⟨⟨hrec, hholds⟩, hrep, hseq⟩ := hg
  cases hfind : findHold s.holds sku ref with
  | none =>
    simp only [stepOp, applyOp, confirmOp, hfind]
    exact ⟨⟨hrec, hholds⟩, hrep, hseq⟩
  | some h =>
    by_cases hlt : h.qty < q
    · simp only [stepOp, applyOp, confirmOp, hfind, if_pos hlt]
      exact ⟨⟨hrec, hholds⟩, hrep, hseq⟩
    · cases hlook : lookupSKU s.records sku with
      | none =>
        simp only [stepOp, applyOp, confirmOp, hfind, if_neg hlt, hlook]
        exact ⟨⟨hrec, hholds⟩, hrep, hseq⟩
      | some r =>
        have hqle : q ≤ h.qty := Nat.le_of_not_lt hlt
        have hsum := heldSum_consumeHold s.holds sku ref q h hfind hqle
        obtain ⟨hr1, hr2⟩ := hrec sku r hlook
        have hstep : stepOp s (.confirm sku q ref) =
            { records := updateSKU s.records sku
                { r with holdStock := r.holdStock - (q : Int) }
              holds := consumeHold s.holds sku ref q
              movements := s.movements ++
                [mkMovement s sku (-(q : Int)) .confirm r.availableStock
                  r.availableStock .order (some ref)] } := by
          simp only [stepOp, applyOp, confirmOp, hfind, if_neg hlt, hlook]
        rw [hstep]
        refine ⟨⟨?_, ?_⟩, ?_, ?_⟩
        · intro sku' r'' hl''
          rw [lookupSKU_updateSKU] at hl''
          by_cases hs' : sku' = sku
          · rw [if_pos hs', hlook] at hl''
            obtain rfl : _ = r'' := Option.some.inj hl''
            subst hs'
            refine ⟨fun hinf => hr1 hinf, ?_⟩
            rw [hsum]
            simp only [ite_true, eq_self_iff_true]
            omega
          · rw [if_neg hs'] at hl''
            obtain ⟨hn1, hn2⟩ := hrec sku' r'' hl''
            refine ⟨hn1, ?_⟩
            rw [hsum, if_neg hs']
            omega
        · intro h' hh'
          rw [lookupSKU_updateSKU]
          by_cases hs' : h'.skuID = sku
          · rw [if_pos hs', hlook]; rfl
          · rw [if_neg hs']
            rcases consumeHold_mem s.holds sku ref q h' hh' with hsk | hmem
            · exact absurd hsk hs'
            · exact hholds h' hmem
        · refine replayGood_append hrep rfl ?_
          intro sku'
          simp only [counters, lookupSKU_updateSKU, mkMovement]
          by_cases hs' : sku = sku'
          · subst hs'
            rw [if_pos rfl, if_pos rfl, hlook]
            simp only [Option.map_some', movApply, Prod.mk.injEq]
            exact ⟨trivial, by omega⟩
          · have hs'' : ¬ sku' = sku := fun hh => hs' hh.symm
            rw [if_neg hs'', if_neg hs']
        · exact seqGood_append hseq rfl rfl

theorem good_adjust (s : LedgerState) (sku : Nat) (delta : Int)
    (src : InventoryActionSource) (hg : Good s) :
    Good (stepOp s (.adjust sku delta src)) := by
  obtain ⟨⟨hrec, hholds⟩, hrep, hseq⟩ := hg
  cases hlook : lookupSKU s.records sku with
  | none =>
    simp only [stepOp, applyOp, adjustOp, hlook]
    exact ⟨⟨hrec, hholds⟩, hrep, hseq⟩
  | some r =>
    by_cases hguard : r.isInfinite = false ∧ r.availableStock + delta < 0
    · simp only [stepOp, applyOp, adjustOp, hlook, if_pos hguard]
      exact ⟨⟨hrec, hholds⟩, hrep, hseq⟩
    · obtain ⟨hr1, hr2⟩ := hrec sku r hlook
      have hstep : stepOp s (.adjust sku delta src) =
          { records := updateSKU s.records sku
              { r with availableStock := r.availableStock + delta }
            holds := s.holds
            movements := s.movements ++
              [mkMovement s sku delta .adjust r.availableStock
                (r.availableStock + delta) src none] } := by
        simp only [stepOp, applyOp, adjustOp, hlook, if_neg hguard]
      rw [hstep]
      refine ⟨⟨?_, ?_⟩, ?_, ?_⟩
      · intro sku' r'' hl''
        rw [lookupSKU_updateSKU] at hl''
        by_cases hs' : sku' = sku
        · rw [if_pos hs', hlook] at hl''
          obtain rfl : _ = r'' := Option.some.inj hl''
          subst hs'
          refine ⟨?_, by simpa using hr2⟩
          intro hinf
          have hge : ¬ r.availableStock + delta < 0 := fun hlt => hguard ⟨hinf, hlt⟩
          simp only at hge ⊢
          omega
        · rw [if_neg hs'] at hl''
          exact hrec sku' r'' hl''
      · intro h hh
        rw [lookupSKU_updateSKU]
        by_cases hs' : h.skuID = sku
        · rw [if_pos hs', hlook]; rfl
        · rw [if_neg hs']; exact hholds h hh
      · refine replayGood_append hrep rfl ?_
        intro sku'
        simp only [counters, lookupSKU_updateSKU, mkMovement]
        by_cases hs' : sku = sku'
        · subst hs'
          rw [if_pos rfl, if_pos rfl, hlook]
          simp only [Option.map_some', movApply, Prod.mk.injEq]
        · have hs'' : ¬ sku' = sku := fun hh => hs' hh.symm
          rw [if_neg hs'', if_neg hs']
      · exact seqGood_append hseq rfl rfl

theorem good_initStock (s : LedgerState) (sku qty : Nat) (strategy : String)
    (unlimited : Bool) (hg : Good s) :
    Good (stepOp s (.initStock sku qty strategy unlimited)) := by
  obtain ⟨⟨hrec, hholds⟩, hrep, hseq⟩ := hg
  cases hlook : lookupSKU s.records sku with
  | some r =>
    simp only [stepOp, applyOp, initStockOp, hlook]
    exact ⟨⟨hrec, hholds⟩, hrep, hseq⟩
  | none =>
    have hnohold : ∀ h ∈ s.holds, h.skuID ≠ sku := by
      intro h hh hcontra
      have := hholds h hh
      rw [hcontra, hlook] at this
      simp at this
    have hsum0 : heldSum s.holds sku = 0 := heldSum_eq_zero s.holds sku hnohold
    have hstep : stepOp s (.initStock sku qty strategy unlimited) =
        { records := (sku,
            applyColumnDefaults
              { goZeroSKUStock sku (qty : Int) 0 with
                stockStrategy := strategy, isInfinite := unlimited }) :: s.records
          holds := s.holds
          movements := s.movements ++
            [mkMovement s sku (qty : Int) .initial 0 (qty : Int) .system none] } := by
      simp only [stepOp, applyOp, initStockOp, hlook]
    rw [hstep]
    refine ⟨⟨?_, ?_⟩, ?_, ?_⟩
    · intro sku' r'' hl''
      simp only [lookupSKU] at hl''
      by_cases hs' : sku = sku'
      · rw [if_pos hs'] at hl''
        obtain rfl : _ = r'' := Option.some.inj hl''
        subst hs'
        refine ⟨?_, ?_⟩
        · intro _
          simp [applyColumnDefaults, goZeroSKUStock]
        · simp [applyColumnDefaults, goZeroSKUStock, hsum0]
      · rw [if_neg hs'] at hl''
        obtain ⟨hn1, hn2⟩ := hrec sku' r'' hl''
        exact ⟨hn1, hn2⟩
    · intro h hh
      simp only [lookupSKU]
      by_cases hs' : sku = h.skuID
      · rw [if_pos hs']; rfl
      · rw [if_neg hs']; exact hholds h hh
    · refine replayGood_append hrep rfl ?_
      intro sku'
      simp only [counters, lookupSKU, mkMovement]
      by_cases hs' : sku = sku'
      · subst hs'
        rw [if_pos rfl, if_pos rfl, hlook]
        simp only [movApply, applyColumnDefaults, goZeroSKUStock, Prod.mk.injEq]
        exact ⟨by omega, trivial⟩
      · rw [if_neg hs', if_neg hs']
    · exact seqGood_append hseq rfl rfl

theorem good_step (s : LedgerState) (op : LedgerOp) (hg : Good s) :
    Good (stepOp s op) := by
  cases op with
  | initStock sku qty strategy unlimited => exact good_initStock s sku qty strategy unlimited hg
  | hold sku q ref => exact good_hold s sku q ref hg
  | release sku q ref => exact good_release s sku q ref hg
  | confirm sku q ref => exact good_confirm s sku q ref hg
  | adjust sku delta src => exact good_adjust s sku delta src hg

theorem good_initial : Good initialLedger := by
  refine ⟨⟨?_, ?_⟩, ?_, ?_⟩
  · intro sku r h
    simp [initialLedger, lookupSKU] at h
  · intro h hh
    simp [initialLedger] at hh
  · intro sku
    simp [initialLedger, movementsFor, replay, counters, lookupSKU]
  · constructor
    · intro m hm
      simp [initialLedger] at hm
    · simp [initialLedger]

theorem good_run (ops : List LedgerOp) : Good (runOps initialLedger ops) := by
  suffices h : ∀ s, Good s → Good (runOps s ops) from h initialLedger good_initial
  induction ops with
  | nil => intro s hs; exact hs
  | cons op rest ih =>
    intro s hs
    exact ih (stepOp s op) (good_step s op hs)

/-! ## Claim theorems: ledger invariants -/

/-- C1: for every SKU at every point in time — i.e. after any sequence of
ledger operations (Initialize, Hold, Release, Confirm, Adjust) starting from
the empty ledger — unless the record is marked unlimited, `availableStock ≥ 0`
and `heldStock ≥ 0`. -/
theorem C1_stock_nonneg (ops : List LedgerOp) (sku : Nat) (r : SKUStock)
    (h : lookupSKU (runOps initialLedger ops).records sku = some r)
    (hinf : r.isInfinite = false) :
    0 ≤ r.availableStock ∧ 0 ≤ r.holdStock := by
  obtain ⟨⟨hrec, -⟩, -, -⟩ := good_run ops
  obtain ⟨h1, h2⟩ := hrec sku r h
  exact ⟨h1 hinf, h2 ▸ heldSum_nonneg _ _⟩

/-- Concrete run backing C1: initialize SKU 1 with 5 units, hold 3 of them. -/
def c1Ops : List LedgerOp :=
  [.initStock 1 5 "payment" false, .hold 1 3 "r1"]

/-- The SKU 1 record after `c1Ops`. -/
def c1Record : SKUStock :=
  { id := 0, skuID := 1, availableStock := 2, holdStock := 3,
    stockStrategy := "payment", lowStockAlert := 10, isInfinite := false,
    warehouseID := none, stockStatus := "in_stock" }

theorem C1_stock_nonneg_witness :
    lookupSKU (runOps initialLedger c1Ops).records 1 = some c1Record ∧
    (0 ≤ c1Record.availableStock ∧ 0 ≤ c1Record.holdStock) :=
  ⟨by decide, C1_stock_nonneg c1Ops 1 c1Record (by decide) (by decide)⟩

/-- C2: for every SKU, replaying all its movement rows in ascending sequence-id
order from the initial value `(0, 0)` reproduces the ledger's current
`availableStock`/`heldStock` exactly, after any sequence of ledger operations;
moreover the SKU's movement rows are strictly ascending in sequence id, so the
log order is the ascending-sequence-id order. -/
theorem C2_replay_reconstruction (ops : List LedgerOp) (sku : Nat) (r : SKUStock)
    (h : lookupSKU (runOps initialLedger ops).records sku = some r) :
    replay (movementsFor (runOps initialLedger ops) sku) =
      (r.availableStock, r.holdStock) ∧
    (movementsFor (runOps initialLedger ops) sku).Pairwise
      (fun a b => a.id < b.id) := by
  obtain ⟨-, hrep, -, hpw⟩ := good_run ops
  constructor
  · have := hrep sku
    rw [counters] at this
    rw [this, h]
  · exact hpw.sublist (List.filter_sublist _)

/-- Concrete run backing C2: initialize, hold, release part, confirm part. -/
def c2Ops : List LedgerOp :=
  [.initStock 7 10 "payment" false, .hold 7 4 "ord-1", .release 7 1 "ord-1",
   .confirm 7 3 "ord-1", .adjust 7 2 .manual]

/-- The SKU 7 record after `c2Ops`. -/
def c2Record : SKUStock :=
  { id := 0, skuID := 7, availableStock := 9, holdStock := 0,
    stockStrategy := "payment", lowStockAlert := 10, isInfinite := false,
    warehouseID := none, stockStatus := "in_stock" }

theorem C2_replay_reconstruction_witness :
    lookupSKU (runOps initialLedger c2Ops).records 7 = some c2Record ∧
    (replay (movementsFor (runOps initialLedger c2Ops) 7) =
      (c2Record.availableStock, c2Record.holdStock) ∧
    (movementsFor (runOps initialLedger c2Ops) 7).Pairwise
      (fun a b => a.id < b.id)) :=
  ⟨by decide, C2_replay_reconstruction c2Ops 7 c2Record (by decide)⟩

/-! ## Claim theorems: Hold/Release and Hold/Confirm composition -/

theorem updateSKU_updateSKU (l : List (Nat × SKUStock)) (k : Nat)
    (v v' : SKUStock) : updateSKU (updateSKU l k v) k v' = updateSKU l k v' := by
  induction l with
  | nil => rfl
  | cons p rest ih =>
    obtain ⟨a, r⟩ := p
    by_cases hak : a = k
    · simp [updateSKU, hak]
    · simp [updateSKU, hak, ih]

theorem updateSKU_self (l : List (Nat × SKUStock)) (k : Nat) (v : SKUStock)
    (h : lookupSKU l k = some v) : updateSKU l k v = l := by
  induction l with
  | nil => rfl
  | cons p rest ih =>
    obtain ⟨a, r⟩ := p
    by_cases hak : a = k
    · subst hak
      simp only [lookupSKU, if_pos rfl] at h
      obtain rfl : r = v := Option.some.inj h
      simp [updateSKU]
    · simp only [lookupSKU, if_neg hak] at h
      simp [updateSKU, hak, ih h]

/-- The ledger state a successful Hold leaves behind (the pre-state when the
Hold fails). -/
def afterHold (led : LedgerState) (sku q : Nat) (ref : String) : LedgerState :=
  match holdOp led sku q ref with
  | .ok p => p.1
  | .error _ => led

/-- The ledger state a successful Release leaves behind (the pre-state when it
fails). -/
def afterRelease (led : LedgerState) (sku q : Nat) (ref : String) : LedgerState :=
  match releaseOp led sku q ref with
  | .ok l => l
  | .error _ => led

/-- The ledger state a successful Confirm leaves behind (the pre-state when it
fails). -/
def afterConfirm (led : LedgerState) (sku q : Nat) (ref : String) : LedgerState :=
  match confirmOp led sku q ref with
  | .ok l => l
  | .error _ => led

/-- C5: a successful (freshly applied) `Hold(sku, q, ref)` followed by
`Release(sku, q, ref)` succeeds and restores `availableStock` and `heldStock`
to their pre-Hold values — indeed it restores every SKU record and the
outstanding-holds table exactly. -/
theorem C5_hold_release_round_trip (led : LedgerState) (sku q : Nat)
    (ref : String) (r : SKUStock) (hr : lookupSKU led.records sku = some r)
    (hfresh : findHold led.holds sku ref = none)
    (hq : r.isInfinite = false → (q : Int) ≤ r.availableStock) :
    holdOp led sku q ref = .ok (afterHold led sku q ref, true) ∧
    (releaseOp (afterHold led sku q ref) sku q ref).isOk = true ∧
    (afterRelease (afterHold led sku q ref) sku q ref).records = led.records ∧
    (afterRelease (afterHold led sku q ref) sku q ref).holds = led.holds := by
  have hguard : ¬ (r.isInfinite = false ∧ r.availableStock < (q : Int)) := by
    rintro ⟨hinf, hlt⟩
    exact absurd (hq hinf) (not_le.mpr hlt)
  have hhold : holdOp led sku q ref = .ok
      ({ records := updateSKU led.records sku
           { r with availableStock := r.availableStock - (q : Int)
                    holdStock := r.holdStock + (q : Int) }
         holds := ⟨sku, ref, q⟩ :: led.holds
         movements := led.movements ++
           [mkMovement led sku (-(q : Int)) .hold r.availableStock
             (r.availableStock - (q : Int)) .order (some ref)] }, true) := by
    simp only [holdOp, hr, hfresh, if_neg hguard]
  refine ⟨?_, ?_, ?_, ?_⟩
  · simp only [afterHold, hhold]
  · simp [afterHold, hhold, releaseOp, findHold, lookupSKU_updateSKU, hr,
      consumeHold, Except.isOk, Except.toBool]
  · simp only [afterHold, afterRelease, hhold]
    simp [releaseOp, findHold, lookupSKU_updateSKU, hr, consumeHold]
    rw [updateSKU_updateSKU]
    exact updateSKU_self led.records sku r hr
  · simp only [afterHold, afterRelease, hhold]
    simp [releaseOp, findHold, lookupSKU_updateSKU, hr, consumeHold]

/-- Concrete state backing C5/C6: one SKU with 5 available, nothing held. -/
def c5Rec : SKUStock :=
  { id := 0, skuID := 1, availableStock := 5, holdStock := 0,
    stockStrategy := "payment", lowStockAlert := 10, isInfinite := false,
    warehouseID := none, stockStatus := "in_stock" }

/-- Ledger state holding only `c5Rec`. -/
def c5Led : LedgerState :=
  { records := [(1, c5Rec)], holds := [], movements := [] }

theorem C5_hold_release_round_trip_witness :
    (lookupSKU c5Led.records 1 = some c5Rec ∧
     findHold c5Led.holds 1 "w" = none ∧
     (c5Rec.isInfinite = false → (2 : Int) ≤ c5Rec.availableStock)) ∧
    (holdOp c5Led 1 2 "w" = .ok (afterHold c5Led 1 2 "w", true) ∧
     (releaseOp (afterHold c5Led 1 2 "w") 1 2 "w").isOk = true ∧
     (afterRelease (afterHold c5Led 1 2 "w") 1 2 "w").records = c5Led.records ∧
     (afterRelease (afterHold c5Led 1 2 "w") 1 2 "w").holds = c5Led.holds) :=
  ⟨⟨by decide, by decide, by decide⟩,
   C5_hold_release_round_trip c5Led 1 2 "w" c5Rec (by decide) (by decide)
     (by decide)⟩

/-- C6: a successful (freshly applied) `Hold(sku, q, ref)` followed by
`Confirm(sku, q, ref)` succeeds, leaves `availableStock` unchanged from its
post-Hold value `availableStock − q`, and reduces `heldStock` by `q` back to
its pre-Hold value. -/
theorem C6_hold_confirm (led : LedgerState) (sku q : Nat) (ref : String)
    (r : SKUStock) (hr : lookupSKU led.records sku = some r)
    (hfresh : findHold led.holds sku ref = none)
    (hq : r.isInfinite = false → (q : Int) ≤ r.availableStock) :
    holdOp led sku q ref = .ok (afterHold led sku q ref, true) ∧
    (confirmOp (afterHold led sku q ref) sku q ref).isOk = true ∧
    lookupSKU (afterHold led sku q ref).records sku =
      some { r with availableStock := r.availableStock - (q : Int)
                    holdStock := r.holdStock + (q : Int) } ∧
    lookupSKU (afterConfirm (afterHold led sku q ref) sku q ref).records sku =
      some { r with availableStock := r.availableStock - (q : Int) } := by
  have hguard : ¬ (r.isInfinite = false ∧ r.availableStock < (q : Int)) := by
    rintro ⟨hinf, hlt⟩
    exact absurd (hq hinf) (not_le.mpr hlt)
  have hhold : holdOp led sku q ref = .ok
      ({ records := updateSKU led.records sku
           { r with availableStock := r.availableStock - (q : Int)
                    holdStock := r.holdStock + (q : Int) }
         holds := ⟨sku, ref, q⟩ :: led.holds
         movements := led.movements ++
           [mkMovement led sku (-(q : Int)) .hold r.availableStock
             (r.availableStock - (q : Int)) .order (some ref)] }, true) := by
    simp only [holdOp, hr, hfresh, if_neg hguard]
  refine ⟨?_, ?_, ?_, ?_⟩
  · simp only [afterHold, hhold]
  · simp [afterHold, hhold, confirmOp, findHold, lookupSKU_updateSKU, hr,
      consumeHold, Except.isOk, Except.toBool]
  · simp only [afterHold, hhold]
    rw [lookupSKU_updateSKU, if_pos rfl, hr]
    rfl
  · simp only [afterHold, afterConfirm, hhold]
    simp [confirmOp, findHold, lookupSKU_updateSKU, hr, consumeHold]

theorem C6_hold_confirm_witness :
    (lookupSKU c5Led.records 1 = some c5Rec ∧
     findHold c5Led.holds 1 "w6" = none ∧
     (c5Rec.isInfinite = false → (2 : Int) ≤ c5Rec.availableStock)) ∧
    (holdOp c5Led 1 2 "w6" = .ok (afterHold c5Led 1 2 "w6", true) ∧
     (confirmOp (afterHold c5Led 1 2 "w6") 1 2 "w6").isOk = true ∧
     lookupSKU (afterHold c5Led 1 2 "w6").records 1 =
       some { c5Rec with availableStock := c5Rec.availableStock - (2 : Int)
                         holdStock := c5Rec.holdStock + (2 : Int) } ∧
     lookupSKU (afterConfirm (afterHold c5Led 1 2 "w6") 1 2 "w6").records 1 =
       some { c5Rec with availableStock := c5Rec.availableStock - (2 : Int) }) :=
  ⟨⟨by decide, by decide, by decide⟩,
   C6_hold_confirm c5Led 1 2 "w6" c5Rec (by decide) (by decide) (by decide)⟩


/-! ## Reservation coordinator

Modelled from the spec: the `ReservationCoordinator` (§4.2) exists only in the
spec; no implementation is in the source tree. -/

/-- Modelled from the spec: reservation lifecycle states (§3). -/
inductive ResState where
  | pending
  | confirmed
  | released
  | expired
deriving DecidableEq, Repr

/-- Modelled from the spec: a coordinator-owned Reservation (§3); timestamps
omitted. -/
structure Reservation where
  reservationID : Nat
  referenceID : String
  lineItems : List (Nat × Nat)
  state : ResState
deriving DecidableEq, Repr

/-- Modelled from the spec: coordinator state — the ledger plus the persisted
reservations (most recent first) and the next fresh reservation id. -/
structure CoordState where
  ledger : LedgerState
  reservations : List Reservation
  nextResID : Nat
deriving DecidableEq, Repr

/-- Modelled from the spec: the outcome of `Reserve` (§4.2): a reservation id,
or `PartialFailure` carrying the failing SKU and reason. -/
inductive ReserveResult where
  | ok (reservationID : Nat)
  | partialFailure (skuID : Nat) (err : LedgerError)
deriving DecidableEq, Repr

/-- Insert a line item into a list sorted by ascending skuID. -/
def insertItem (p : Nat × Nat) : List (Nat × Nat) → List (Nat × Nat)
  | [] => [p]
  | x :: rest => if p.1 ≤ x.1 then p :: x :: rest else x :: insertItem p rest

/-- Modelled from the spec: the fixed deterministic order of §4.2 — line items
sorted by ascending skuID (insertion sort). -/
def sortItems : List (Nat × Nat) → List (Nat × Nat)
  | [] => []
  | p :: rest => insertItem p (sortItems rest)

/-- Modelled from the spec: saga compensation (§4.2) — release the accumulated
holds; the accumulator is kept most-recent-first, so this is reverse order of
acquisition.  A failing compensation release leaves the ledger unchanged for
that item (§7: surfaced for manual reconciliation, not applied). -/
def compensate (ref : String) : LedgerState → List (Nat × Nat) → LedgerState
  | led, [] => led
  | led, (sku, q) :: rest =>
    match releaseOp led sku q ref with
    | .ok led' => compensate ref led' rest
    | .error _ => compensate ref led rest

/-- Modelled from the spec: the sequential hold loop of `Reserve` (§4.2);
`acc` collects the line items whose holds this call actually applied
(most recent first), for compensation on first failure. -/
def reserveGo (ref : String) : LedgerState → List (Nat × Nat) →
    List (Nat × Nat) → LedgerState × Option (Nat × LedgerError)
  | led, [], _ => (led, none)
  | led, (sku, q) :: rest, acc =>
    match holdOp led sku q ref with
    | .ok (led', applied) =>
      reserveGo ref led' rest (cond applied ((sku, q) :: acc) acc)
    | .error e => (compensate ref led acc, some (sku, e))

/-- Modelled from the spec: `Reserve(referenceID, lineItems)` (§4.2):
idempotent on a matching non-terminal (Pending) reservation; otherwise holds
each line item in ascending-skuID order, compensating in reverse order on the
first failure; on full success persists a Pending reservation. -/
def reserve (cs : CoordState) (ref : String) (items : List (Nat × Nat)) :
    CoordState × ReserveResult :=
  match cs.reservations.find?
      (fun rv => rv.referenceID == ref && rv.state == ResState.pending) with
  | some rv => (cs, .ok rv.reservationID)
  | none =>
    match reserveGo ref cs.ledger (sortItems items) [] with
    | (led', none) =>
      ({ ledger := led'
         reservations := ⟨cs.nextResID, ref, items, .pending⟩ :: cs.reservations
         nextResID := cs.nextResID + 1 }, .ok cs.nextResID)
    | (led', some (sku, e)) =>
      ({ cs with ledger := led' }, .partialFailure sku e)

/-- A Hold that reports `applied = false` was deduplicated and left the state
unchanged. -/
theorem holdOp_dedup_eq (led led' : LedgerState) (sku q : Nat) (ref : String)
    (h : holdOp led sku q ref = .ok (led', false)) : led' = led := by
  cases hlook : lookupSKU led.records sku with
  | none => simp [holdOp, hlook] at h
  | some r =>
    cases hfind : findHold led.holds sku ref with
    | some h0 =>
      simp only [holdOp, hlook, hfind, Except.ok.injEq, Prod.mk.injEq] at h
      exact h.1.symm
    | none =>
      by_cases hguard : r.isInfinite = false ∧ r.availableStock < (q : Int)
      · simp [holdOp, hlook, hfind, hguard] at h
      · simp only [holdOp, hlook, hfind, if_neg hguard, Except.ok.injEq,
          Prod.mk.injEq] at h
        exact absurd h.2 (by simp)

/-- A successful Release is the `.ok` of `afterRelease`. -/
theorem releaseOp_eq_of_isOk (led : LedgerState) (sku q : Nat) (ref : String)
    (h : (releaseOp led sku q ref).isOk = true) :
    releaseOp led sku q ref = .ok (afterRelease led sku q ref) := by
  unfold afterRelease
  cases hx : releaseOp led sku q ref with
  | ok l => rfl
  | error e => rw [hx] at h; simp [Except.isOk, Except.toBool] at h

/-- Releasing the quantity just held under the same reference succeeds and
restores the records and holds tables exactly. -/
theorem release_after_hold (led led' : LedgerState) (sku q : Nat) (ref : String)
    (h : holdOp led sku q ref = .ok (led', true)) :
    (releaseOp led' sku q ref).isOk = true ∧
    (afterRelease led' sku q ref).records = led.records ∧
    (afterRelease led' sku q ref).holds = led.holds := by
  cases hlook : lookupSKU led.records sku with
  | none => simp [holdOp, hlook] at h
  | some r =>
    cases hfind : findHold led.holds sku ref with
    | some h0 =>
      simp only [holdOp, hlook, hfind, Except.ok.injEq, Prod.mk.injEq] at h
      exact absurd h.2 (by simp)
    | none =>
      by_cases hguard : r.isInfinite = false ∧ r.availableStock < (q : Int)
      · simp [holdOp, hlook, hfind, hguard] at h
      · simp only [holdOp, hlook, hfind, if_neg hguard, Except.ok.injEq,
          Prod.mk.injEq] at h
        obtain ⟨h1, -⟩ := h
        subst h1
        refine ⟨?_, ?_, ?_⟩
        · simp [releaseOp, findHold, lookupSKU_updateSKU, hlook, consumeHold,
            Except.isOk, Except.toBool]
        · simp only [afterRelease]
          simp [releaseOp, findHold, lookupSKU_updateSKU, hlook, consumeHold]
          rw [updateSKU_updateSKU]
          exact updateSKU_self led.records sku r hlook
        · simp only [afterRelease]
          simp [releaseOp, findHold, lookupSKU_updateSKU, hlook, consumeHold]

/-- Release's control flow and its effect on records/holds depend only on the
records and holds tables, never on the movement log. -/
theorem releaseOp_sameCore (a b : LedgerState) (sku q : Nat) (ref : String)
    (hrec : a.records = b.records) (hh : a.holds = b.holds) :
    (∃ ea eb, releaseOp a sku q ref = .error ea ∧
      releaseOp b sku q ref = .error eb) ∨
    (∃ a' b', releaseOp a sku q ref = .ok a' ∧ releaseOp b sku q ref = .ok b' ∧
      a'.records = b'.records ∧ a'.holds = b'.holds) := by
  unfold releaseOp
  rw [← hh, ← hrec]
  cases hfind : findHold a.holds sku ref with
  | none => exact Or.inl ⟨_, _, rfl, rfl⟩
  | some h0 =>
    by_cases hlt : h0.qty < q
    · simp only [if_pos hlt]
      exact Or.inl ⟨_, _, rfl, rfl⟩
    · simp only [if_neg hlt]
      cases hlook : lookupSKU a.records sku with
      | none => exact Or.inl ⟨_, _, rfl, rfl⟩
      | some r => exact Or.inr ⟨_, _, rfl, rfl, rfl, rfl⟩

/-- Compensation's effect on records/holds depends only on the records and
holds tables of the starting state. -/
theorem compensate_sameCore (ref : String) (acc : List (Nat × Nat)) :
    ∀ a b : LedgerState, a.records = b.records → a.holds = b.holds →
      (compensate ref a acc).records = (compensate ref b acc).records ∧
      (compensate ref a acc).holds = (compensate ref b acc).holds := by
  induction acc with
  | nil => exact fun a b h1 h2 => ⟨h1, h2⟩
  | cons p rest ih =>
    intro a b h1 h2
    obtain ⟨sku, q⟩ := p
    rcases releaseOp_sameCore a b sku q ref h1 h2 with
      ⟨ea, eb, hA, hB⟩ | ⟨a', b', hA, hB, hc1, hc2⟩
    · simp only [compensate, hA, hB]
      exact ih a b h1 h2
    · simp only [compensate, hA, hB]
      exact ih a' b' hc1 hc2

/-- The hold loop of `Reserve`: whenever it fails, the compensation it ran
restores the records and holds tables to their pre-call values. -/
theorem reserveGo_fail_core (ref : String) (led0 : LedgerState) :
    ∀ (items acc : List (Nat × Nat)) (led : LedgerState),
      (compensate ref led acc).records = led0.records →
      (compensate ref led acc).holds = led0.holds →
      ∀ (ledF : LedgerState) (sku : Nat) (e : LedgerError),
        reserveGo ref led items acc = (ledF, some (sku, e)) →
        ledF.records = led0.records ∧ ledF.holds = led0.holds := by
  intro items
  induction items with
  | nil =>
    intro acc led h1 h2 ledF sku e hrun
    simp [reserveGo] at hrun
  | cons p rest ih =>
    intro acc led h1 h2 ledF sku e hrun
    obtain ⟨sku1, q1⟩ := p
    simp only [reserveGo] at hrun
    cases hh : holdOp led sku1 q1 ref with
    | error e1 =>
      rw [hh] at hrun
      injection hrun with hF hres
      subst hF
      exact ⟨h1, h2⟩
    | ok p' =>
      obtain ⟨led', applied⟩ := p'
      rw [hh] at hrun
      cases applied with
      | false =>
        have hde : led' = led := holdOp_dedup_eq led led' sku1 q1 ref hh
        subst hde
        simp only [cond_false] at hrun
        exact ih acc led' h1 h2 ledF sku e hrun
      | true =>
        simp only [cond_true] at hrun
        obtain ⟨hok, hcr, hch⟩ := release_after_hold led led' sku1 q1 ref hh
        have hre := releaseOp_eq_of_isOk led' sku1 q1 ref hok
        have hcomp : compensate ref led' ((sku1, q1) :: acc) =
            compensate ref (afterRelease led' sku1 q1 ref) acc := by
          simp only [compensate, hre]
        obtain ⟨hs1, hs2⟩ :=
          compensate_sameCore ref acc (afterRelease led' sku1 q1 ref) led hcr hch
        refine ih ((sku1, q1) :: acc) led' ?_ ?_ ledF sku e hrun
        · rw [hcomp, hs1]; exact h1
        · rw [hcomp, hs2]; exact h2


/-- C4: if a multi-item `Reserve` fails on some line item, the coordinator's
compensation has released every previously-held line item (issued in reverse
order of acquisition) and the caller receives no partial reservation: the
records and holds tables — in particular every SKU's `availableStock` — and the
persisted reservations are exactly as before the call. -/
theorem C4_reserve_rollback (cs : CoordState) (ref : String)
    (items : List (Nat × Nat)) (sku : Nat) (e : LedgerError)
    (hfail : (reserve cs ref items).2 = .partialFailure sku e) :
    (reserve cs ref items).1.ledger.records = cs.ledger.records ∧
    (reserve cs ref items).1.ledger.holds = cs.ledger.holds ∧
    (reserve cs ref items).1.reservations = cs.reservations := by
  cases hfind : cs.reservations.find?
      (fun rv => rv.referenceID == ref && rv.state == ResState.pending) with
  | some rv =>
    simp only [reserve, hfind] at hfail
    exact absurd hfail (by simp)
  | none =>
    cases hgo : reserveGo ref cs.ledger (sortItems items) [] with
    | mk led' res =>
      cases res with
      | none =>
        simp only [reserve, hfind, hgo] at hfail
        exact absurd hfail (by simp)
      | some p =>
        obtain ⟨sku1, e1⟩ := p
        simp only [reserve, hfind, hgo]
        obtain ⟨hc1, hc2⟩ := reserveGo_fail_core ref cs.ledger (sortItems items)
          [] cs.ledger rfl rfl led' sku1 e1 hgo
        exact ⟨hc1, hc2, trivial⟩

/-- SKU 2 with zero stock, for the C4 saga-rollback scenario. -/
def c4RecB : SKUStock :=
  { id := 0, skuID := 2, availableStock := 0, holdStock := 0,
    stockStrategy := "payment", lowStockAlert := 10, isInfinite := false,
    warehouseID := none, stockStatus := "in_stock" }

/-- Coordinator state for C4: SKU 1 has 5 units, SKU 2 has 0. -/
def c4CS : CoordState :=
  { ledger := { records := [(1, c5Rec), (2, c4RecB)], holds := [], movements := [] }
    reservations := []
    nextResID := 1 }

theorem C4_reserve_rollback_witness :
    (reserve c4CS "rx" [(1, 1), (2, 1)]).2 =
      .partialFailure 2 .outOfStock ∧
    ((reserve c4CS "rx" [(1, 1), (2, 1)]).1.ledger.records =
      c4CS.ledger.records ∧
     (reserve c4CS "rx" [(1, 1), (2, 1)]).1.ledger.holds = c4CS.ledger.holds ∧
     (reserve c4CS "rx" [(1, 1), (2, 1)]).1.reservations = c4CS.reservations) :=
  ⟨by decide,
   C4_reserve_rollback c4CS "rx" [(1, 1), (2, 1)] 2 .outOfStock (by decide)⟩

/-- C7: `Reserve` is idempotent on `referenceID`: after a successful
`Reserve(ref, items)`, repeating the call with the same reference and the same
line items returns the same `reservationID` and leaves the coordinator state
(ledger included) unchanged — stock is deducted only once. -/
theorem C7_reserve_idempotent (cs cs₁ : CoordState) (ref : String)
    (items : List (Nat × Nat)) (rid : Nat)
    (h : reserve cs ref items = (cs₁, .ok rid)) :
    reserve cs₁ ref items = (cs₁, .ok rid) := by
  cases hfind : cs.reservations.find?
      (fun rv => rv.referenceID == ref && rv.state == ResState.pending) with
  | some rv =>
    simp only [reserve, hfind] at h
    injection h with h1 h2
    injection h2 with h3
    subst h1
    subst h3
    simp only [reserve, hfind]
  | none =>
    cases hgo : reserveGo ref cs.ledger (sortItems items) [] with
    | mk led' res =>
      cases res with
      | some p =>
        obtain ⟨sku1, e1⟩ := p
        simp only [reserve, hfind, hgo] at h
        injection h with h1 h2
        exact absurd h2 (by simp)
      | none =>
        simp only [reserve, hfind, hgo] at h
        injection h with h1 h2
        injection h2 with h3
        subst h1
        subst h3
        have hfind2 : List.find? (fun rv : Reservation =>
            rv.referenceID == ref && rv.state == ResState.pending)
            (⟨cs.nextResID, ref, items, .pending⟩ :: cs.reservations) =
            some ⟨cs.nextResID, ref, items, .pending⟩ := by
          simp [List.find?]
        simp only [reserve, hfind2]

/-- Single-SKU record backing C7: SKU 3 with 8 units. -/
def c7Rec : SKUStock :=
  { id := 0, skuID := 3, availableStock := 8, holdStock := 0,
    stockStrategy := "payment", lowStockAlert := 10, isInfinite := false,
    warehouseID := none, stockStatus := "in_stock" }

/-- Coordinator state for the C7 witness. -/
def c7CS : CoordState :=
  { ledger := { records := [(3, c7Rec)], holds := [], movements := [] }
    reservations := []
    nextResID := 41 }

theorem C7_reserve_idempotent_witness :
    reserve c7CS "ord-7" [(3, 2)] =
      ((reserve c7CS "ord-7" [(3, 2)]).1, .ok 41) ∧
    reserve (reserve c7CS "ord-7" [(3, 2)]).1 "ord-7" [(3, 2)] =
      ((reserve c7CS "ord-7" [(3, 2)]).1, .ok 41) :=
  ⟨by decide,
   C7_reserve_idempotent c7CS (reserve c7CS "ord-7" [(3, 2)]).1 "ord-7"
     [(3, 2)] 41 (by decide)⟩

/-- Initial state of the §8 concurrency scenario: one SKU (id 1) initialized
with 10 units, no reservations. -/
def c3Init : CoordState :=
  { ledger := runOps initialLedger [.initStock 1 10 "payment" false]
    reservations := []
    nextResID := 1 }

/-- Run one single-line-item `Reserve` of quantity 3 on SKU 1 per reference,
in the given order, collecting the results. -/
def c3Run (refs : List String) : CoordState × List ReserveResult :=
  refs.foldl
    (fun p ref =>
      ((reserve p.1 ref [(1, 3)]).1, p.2 ++ [(reserve p.1 ref [(1, 3)]).2]))
    (c3Init, [])

/-- Whether a `Reserve` outcome is a success. -/
def isOkResult : ReserveResult → Bool
  | .ok _ => true
  | .partialFailure _ _ => false

/-- All ways to insert `x` at one position of a list. -/
def insertionsOf (x : String) : List String → List (List String)
  | [] => [[x]]
  | y :: rest => (x :: y :: rest) :: (insertionsOf x rest).map (y :: ·)

/-- All orderings (permutations) of a list, by repeated insertion; a
kernel-reducible enumeration of the serialized schedules of the concurrent
calls. -/
def allOrders : List String → List (List String)
  | [] => [[]]
  | x :: rest => (allOrders rest).flatMap (insertionsOf x)

theorem cons_self_mem_insertionsOf (x : String) (l : List String) :
    x :: l ∈ insertionsOf x l := by
  cases l <;> simp [insertionsOf]

theorem self_mem_insertionsOf (x : String) (m : List String) (hx : x ∈ m) :
    m ∈ insertionsOf x (m.erase x) := by
  induction m with
  | nil => simp at hx
  | cons y rest ih =>
    by_cases hxy : y = x
    · subst hxy
      rw [List.erase_cons_head]
      exact cons_self_mem_insertionsOf y rest
    · have hx' : x ∈ rest := by
        rcases List.mem_cons.mp hx with h | h
        · exact absurd h.symm hxy
        · exact h
      have herase : (y :: rest).erase x = y :: rest.erase x := by
        simp [List.erase_cons, hxy]
      rw [herase]
      simp only [insertionsOf, List.mem_cons]
      exact Or.inr (List.mem_map.mpr ⟨rest, ih hx', rfl⟩)

/-- Every permutation of `L` is enumerated by `allOrders L`. -/
theorem perm_mem_allOrders (L : List String) :
    ∀ l : List String, l.Perm L → l ∈ allOrders L := by
  induction L with
  | nil =>
    intro l h
    simp [allOrders, h.eq_nil]
  | cons x rest ih =>
    intro l h
    have hx : x ∈ l := h.mem_iff.mpr (by simp)
    have h2 : (l.erase x).Perm rest := by
      have := h.erase x
      rwa [List.erase_cons_head] at this
    exact List.mem_flatMap.mpr ⟨l.erase x, ih (l.erase x) h2,
      self_mem_insertionsOf x l hx⟩

set_option maxRecDepth 100000

/-- C3: with `availableStock = 10` and five Reserve calls each requesting
quantity 3 under distinct reference IDs — serialized in any order, which is
every interleaving the spec's per-SKU serialization (§5) admits — exactly
three succeed, the remaining two fail with `OutOfStock`, and the final state
is `availableStock = 1`, `heldStock = 9`. -/
theorem C3_no_oversell (refs : List String)
    (h : refs.Perm ["r1", "r2", "r3", "r4", "r5"]) :
    ((c3Run refs).2.countP isOkResult = 3) ∧
    ((c3Run refs).2.countP
      (fun r => r == ReserveResult.partialFailure 1 LedgerError.outOfStock)
        = 2) ∧
    counters (c3Run refs).1.ledger 1 = (1, 9) := by
  suffices hs : ∀ l ∈ allOrders ["r1", "r2", "r3", "r4", "r5"],
      ((c3Run l).2.countP isOkResult = 3) ∧
      ((c3Run l).2.countP
        (fun r => r == ReserveResult.partialFailure 1 LedgerError.outOfStock)
          = 2) ∧
      counters (c3Run l).1.ledger 1 = (1, 9) from
    hs refs (perm_mem_allOrders _ refs h)
  decide

theorem C3_no_oversell_witness :
    (["r5", "r4", "r3", "r2", "r1"] : List String).Perm
      ["r1", "r2", "r3", "r4", "r5"] ∧
    (((c3Run ["r5", "r4", "r3", "r2", "r1"]).2.countP isOkResult = 3) ∧
     ((c3Run ["r5", "r4", "r3", "r2", "r1"]).2.countP
       (fun r => r == ReserveResult.partialFailure 1 LedgerError.outOfStock)
         = 2) ∧
     counters (c3Run ["r5", "r4", "r3", "r2", "r1"]).1.ledger 1 = (1, 9)) :=
  ⟨by decide, C3_no_oversell ["r5", "r4", "r3", "r2", "r1"] (by decide)⟩


/-! ## Claim theorems: movement snapshots and record defaults -/

/-- State for the C8 counterexample: SKU 1 with 5 available and 3 held (hold
of 3 outstanding under reference "r"). -/
def c8LedA : LedgerState :=
  { records := [(1,
      { id := 0, skuID := 1, availableStock := 5, holdStock := 3,
        stockStrategy := "payment", lowStockAlert := 10, isInfinite := false,
        warehouseID := none, stockStatus := "in_stock" })]
    holds := [⟨1, "r", 3⟩]
    movements := [] }

/-- Same as `c8LedA` but with 7 held instead of 3. -/
def c8LedB : LedgerState :=
  { records := [(1,
      { id := 0, skuID := 1, availableStock := 5, holdStock := 7,
        stockStrategy := "payment", lowStockAlert := 10, isInfinite := false,
        warehouseID := none, stockStatus := "in_stock" })]
    holds := [⟨1, "r", 7⟩]
    movements := [] }

/-- C8 counterexample: the `StockMovement` row of inventory.go carries exactly
two counter snapshots (`beforeStock`/`afterStock`), not four.  Two Confirm
mutations whose held-counter before/after values differ (3→1 versus 7→5)
produce byte-identical movement rows, so no movement row carries — or even
determines — `beforeHeld`/`afterHeld`. -/
theorem C8_counterexample :
    (confirmOp c8LedA 1 2 "r").isOk = true ∧
    (confirmOp c8LedB 1 2 "r").isOk = true ∧
    (afterConfirm c8LedA 1 2 "r").movements =
      (afterConfirm c8LedB 1 2 "r").movements ∧
    (counters c8LedA 1).2 ≠ (counters c8LedB 1).2 ∧
    (counters (afterConfirm c8LedA 1 2 "r") 1).2 ≠
      (counters (afterConfirm c8LedB 1 2 "r") 1).2 := by
  decide

/-- C8 (amended): every movement row written by a ledger mutation carries two
counter snapshots — `beforeStock` and `afterStock`, the before/after values of
the available counter (the held counter's snapshots are not recorded). -/
theorem C8_movement_snapshots (s : LedgerState) (op : LedgerOp)
    (m : StockMovement) (h : (stepOp s op).movements = s.movements ++ [m]) :
    m.beforeStock = (counters s m.skuID).1 ∧
    m.afterStock = (counters (stepOp s op) m.skuID).1 := by
  cases op with
  | initStock sku qty strategy unlimited =>
    cases hlook : lookupSKU s.records sku with
    | some r =>
      simp only [stepOp, applyOp, initStockOp, hlook] at h
      simp at h
    | none =>
      have hstep : stepOp s (.initStock sku qty strategy unlimited) =
          { records := (sku,
              applyColumnDefaults
                { goZeroSKUStock sku (qty : Int) 0 with
                  stockStrategy := strategy, isInfinite := unlimited }) :: s.records
            holds := s.holds
            movements := s.movements ++
              [mkMovement s sku (qty : Int) .initial 0 (qty : Int) .system none] } := by
        simp only [stepOp, applyOp, initStockOp, hlook]
      rw [hstep] at h ⊢
      simp only at h
      obtain rfl : mkMovement s sku (qty : Int) .initial 0 (qty : Int)
          .system none = m := by
        have := List.append_cancel_left h
        simpa using this
      constructor
      · simp [mkMovement, counters, hlook]
      · simp [mkMovement, counters, lookupSKU, applyColumnDefaults,
          goZeroSKUStock]
  | hold sku q ref =>
    cases hlook : lookupSKU s.records sku with
    | none =>
      simp only [stepOp, applyOp, holdOp, hlook, Except.map] at h
      simp at h
    | some r =>
      cases hfind : findHold s.holds sku ref with
      | some h0 =>
        simp only [stepOp, applyOp, holdOp, hlook, hfind, Except.map] at h
        simp at h
      | none =>
        by_cases hguard : r.isInfinite = false ∧ r.availableStock < (q : Int)
        · simp only [stepOp, applyOp, holdOp, hlook, hfind, if_pos hguard,
            Except.map] at h
          simp at h
        · have hstep : stepOp s (.hold sku q ref) =
              { records := updateSKU s.records sku
                  { r with availableStock := r.availableStock - (q : Int)
                           holdStock := r.holdStock + (q : Int) }
                holds := ⟨sku, ref, q⟩ :: s.holds
                movements := s.movements ++
                  [mkMovement s sku (-(q : Int)) .hold r.availableStock
                    (r.availableStock - (q : Int)) .order (some ref)] } := by
            simp only [stepOp, applyOp, holdOp, hlook, hfind, if_neg hguard,
              Except.map]
          rw [hstep] at h ⊢
          simp only at h
          obtain rfl : mkMovement s sku (-(q : Int)) .hold r.availableStock
              (r.availableStock - (q : Int)) .order (some ref) = m := by
            have := List.append_cancel_left h
            simpa using this
          constructor
          · simp [mkMovement, counters, hlook]
          · simp [mkMovement, counters, lookupSKU_updateSKU, hlook]
  | release sku q ref =>
    cases hfind : findHold s.holds sku ref with
    | none =>
      simp only [stepOp, applyOp, releaseOp, hfind] at h
      simp at h
    | some h0 =>
      by_cases hlt : h0.qty < q
      · simp only [stepOp, applyOp, releaseOp, hfind, if_pos hlt] at h
        simp at h
      · cases hlook : lookupSKU s.records sku with
        | none =>
          simp only [stepOp, applyOp, releaseOp, hfind, if_neg hlt, hlook] at h
          simp at h
        | some r =>
          have hstep : stepOp s (.release sku q ref) =
              { records := updateSKU s.records sku
                  { r with availableStock := r.availableStock + (q : Int)
                           holdStock := r.holdStock - (q : Int) }
                holds := consumeHold s.holds sku ref q
                movements := s.movements ++
                  [mkMovement s sku (q : Int) .release r.availableStock
                    (r.availableStock + (q : Int)) .order (some ref)] } := by
            simp only [stepOp, applyOp, releaseOp, hfind, if_neg hlt, hlook]
          rw [hstep] at h ⊢
          simp only at h
          obtain rfl : mkMovement s sku (q : Int) .release r.availableStock
              (r.availableStock + (q : Int)) .order (some ref) = m := by
            have := List.append_cancel_left h
            simpa using this
          constructor
          · simp [mkMovement, counters, hlook]
          · simp [mkMovement, counters, lookupSKU_updateSKU, hlook]
  | confirm sku q ref =>
    cases hfind : findHold s.holds sku ref with
    | none =>
      simp only [stepOp, applyOp, confirmOp, hfind] at h
      simp at h
    | some h0 =>
      by_cases hlt : h0.qty < q
      · simp only [stepOp, applyOp, confirmOp, hfind, if_pos hlt] at h
        simp at h
      · cases hlook : lookupSKU s.records sku with
        | none =>
          simp only [stepOp, applyOp, confirmOp, hfind, if_neg hlt, hlook] at h
          simp at h
        | some r =>
          have hstep : stepOp s (.confirm sku q ref) =
              { records := updateSKU s.records sku
                  { r with holdStock := r.holdStock - (q : Int) }
                holds := consumeHold s.holds sku ref q
                movements := s.movements ++
                  [mkMovement s sku (-(q : Int)) .confirm r.availableStock
                    r.availableStock .order (some ref)] } := by
            simp only [stepOp, applyOp, confirmOp, hfind, if_neg hlt, hlook]
          rw [hstep] at h ⊢
          simp only at h
          obtain rfl : mkMovement s sku (-(q : Int)) .confirm r.availableStock
              r.availableStock .order (some ref) = m := by
            have := List.append_cancel_left h
            simpa using this
          constructor
          · simp [mkMovement, counters, hlook]
          · simp [mkMovement, counters, lookupSKU_updateSKU, hlook]
  | adjust sku delta src =>
    cases hlook : lookupSKU s.records sku with
    | none =>
      simp only [stepOp, applyOp, adjustOp, hlook] at h
      simp at h
    | some r =>
      by_cases hguard : r.isInfinite = false ∧ r.availableStock + delta < 0
      · simp only [stepOp, applyOp, adjustOp, hlook, if_pos hguard] at h
        simp at h
      · have hstep : stepOp s (.adjust sku delta src) =
            { records := updateSKU s.records sku
                { r with availableStock := r.availableStock + delta }
              holds := s.holds
              movements := s.movements ++
                [mkMovement s sku delta .adjust r.availableStock
                  (r.availableStock + delta) src none] } := by
          simp only [stepOp, applyOp, adjustOp, hlook, if_neg hguard]
        rw [hstep] at h ⊢
        simp only at h
        obtain rfl : mkMovement s sku delta .adjust r.availableStock
            (r.availableStock + delta) src none = m := by
          have := List.append_cancel_left h
          simpa using this
        constructor
        · simp [mkMovement, counters, hlook]
        · simp [mkMovement, counters, lookupSKU_updateSKU, hlook]

theorem C8_movement_snapshots_witness :
    ((stepOp c5Led (.hold 1 2 "w8")).movements = c5Led.movements ++
      [mkMovement c5Led 1 (-(2 : Int)) .hold 5 3 .order (some "w8")]) ∧
    ((mkMovement c5Led 1 (-(2 : Int)) .hold 5 3 .order
        (some "w8")).beforeStock =
      (counters c5Led (mkMovement c5Led 1 (-(2 : Int)) .hold 5 3 .order
        (some "w8")).skuID).1 ∧
     (mkMovement c5Led 1 (-(2 : Int)) .hold 5 3 .order
        (some "w8")).afterStock =
      (counters (stepOp c5Led (.hold 1 2 "w8"))
        (mkMovement c5Led 1 (-(2 : Int)) .hold 5 3 .order
          (some "w8")).skuID).1) :=
  ⟨by decide,
   C8_movement_snapshots c5Led (.hold 1 2 "w8")
     (mkMovement c5Led 1 (-(2 : Int)) .hold 5 3 .order (some "w8"))
     (by decide)⟩

/-- C9: a newly created `SKUStock` row whose optional columns were left
unspecified (the Go zero values) receives the gorm column defaults declared in
inventory.go: `stockStrategy = "payment"` (the payment-time strategy),
low-stock alert threshold `10`, `isInfinite = false`, and
`stockStatus = "in_stock"`. -/
theorem C9_skustock_defaults (sku : Nat) (avail held : Int) :
    (applyColumnDefaults (goZeroSKUStock sku avail held)).stockStrategy
      = "payment" ∧
    (applyColumnDefaults (goZeroSKUStock sku avail held)).lowStockAlert = 10 ∧
    (applyColumnDefaults (goZeroSKUStock sku avail held)).isInfinite = false ∧
    (applyColumnDefaults (goZeroSKUStock sku avail held)).stockStatus
      = "in_stock" := by
  simp [applyColumnDefaults, goZeroSKUStock]


/-! ## UintSlice Value/Scan (shipping and marketing model files)

The Go type `UintSlice []uint` implements `driver.Valuer` by
`json.Marshal(a)` and `sql.Scanner` by asserting the value to `[]byte` and
calling `json.Unmarshal(b, &a)` — note `&a` where `a` is already the
`*UintSlice` receiver.  Bytes are modelled as `List Char`. -/

/-- `UintSlice`: a Go `[]uint`.  `none` models the nil slice, `some l` a
non-nil slice; `json.Marshal` distinguishes them (nil marshals to `null`). -/
abbrev UintSlice := Option (List Nat)

deriving instance DecidableEq for Except

/-- The decimal digit character of `d < 10`. -/
def digitChar (d : Nat) : Char :=
  match d with
  | 0 => '0' | 1 => '1' | 2 => '2' | 3 => '3' | 4 => '4'
  | 5 => '5' | 6 => '6' | 7 => '7' | 8 => '8' | _ => '9'

/-- The numeric value of a digit character. -/
def digitVal (c : Char) : Nat :=
  match c with
  | '0' => 0 | '1' => 1 | '2' => 2 | '3' => 3 | '4' => 4
  | '5' => 5 | '6' => 6 | '7' => 7 | '8' => 8 | '9' => 9
  | _ => 0

/-- Whether a character is a decimal digit. -/
def isDigitChar (c : Char) : Bool :=
  match c with
  | '0' | '1' | '2' | '3' | '4' | '5' | '6' | '7' | '8' | '9' => true
  | _ => false

/-- Decimal rendering of a natural number — what `json.Marshal` emits for one
`uint`. -/
def toDecimal (n : Nat) : List Char :=
  if _h : n < 10 then [digitChar n]
  else toDecimal (n / 10) ++ [digitChar (n % 10)]
termination_by n
decreasing_by exact Nat.div_lt_self (by omega) (by omega)

/-- `UintSlice.Value`: the bytes `json.Marshal` produces for a `[]uint` —
`null` for the nil slice, otherwise the elements in decimal, comma-separated
without spaces, between brackets. -/
def uintSliceValue : UintSlice → List Char
  | none => ['n', 'u', 'l', 'l']
  | some l => '[' :: [','].intercalate (l.map toDecimal) ++ [']']

/-- The numeric value of a digit run (most significant digit first). -/
def digitsVal (ds : List Char) : Nat :=
  ds.foldl (fun a c => 10 * a + digitVal c) 0

/-- Parser for the array grammar `json.Marshal` emits for a `[]uint`:
`[` and `]` around nonempty digit runs separated by commas. -/
def parseUintArray (cs : List Char) : Option (List Nat) :=
  if cs.head? = some '[' then
    if cs.tail.getLast? = some ']' then
      let body := cs.tail.dropLast
      if body = [] then some []
      else
        let parts := body.splitOn ','
        if parts.all (fun p => !p.isEmpty && p.all isDigitChar) then
          some (parts.map digitsVal)
        else none
    else none
  else none

/-- `UintSlice.Scan`: Go asserts the driver value to `[]byte` and calls
`json.Unmarshal(b, &a)` where `a` is already the `*UintSlice` receiver.  For a
JSON array the double indirection is fully dereferenced and the destination
slice is overwritten; for JSON `null`, `encoding/json` stops at the first
settable pointer — the local copy `a` — sets it to nil, and leaves the
destination slice untouched, so `Scan` returns with the destination
unchanged. -/
def uintSliceScan (dest : UintSlice) (b : List Char) : Except String UintSlice :=
  if b = ['n', 'u', 'l', 'l'] then .ok dest
  else
    match parseUintArray b with
    | some l => .ok (some l)
    | none => .error "json unmarshal error"

theorem digitVal_digitChar : ∀ d < 10, digitVal (digitChar d) = d := by decide

theorem isDigitChar_digitChar : ∀ d < 10, isDigitChar (digitChar d) = true := by
  decide

theorem toDecimal_ne_nil (n : Nat) : toDecimal n ≠ [] := by
  rw [toDecimal]
  split
  · simp
  · simp

theorem toDecimal_digits (n : Nat) : ∀ c ∈ toDecimal n, isDigitChar c = true := by
  induction n using Nat.strong_induction_on with
  | _ n ih =>
    rw [toDecimal]
    split
    · next h =>
      intro c hc
      obtain rfl : c = digitChar n := by simpa using hc
      exact isDigitChar_digitChar n h
    · next h =>
      intro c hc
      rcases List.mem_append.mp hc with hmem | hmem
      · exact ih (n / 10) (Nat.div_lt_self (by omega) (by omega)) c hmem
      · obtain rfl : c = digitChar (n % 10) := by simpa using hmem
        exact isDigitChar_digitChar _ (Nat.mod_lt _ (by omega))

theorem toDecimal_no_comma (n : Nat) : ',' ∉ toDecimal n := by
  intro hmem
  have := toDecimal_digits n ',' hmem
  simp [isDigitChar] at this

theorem digitsVal_toDecimal (n : Nat) : digitsVal (toDecimal n) = n := by
  induction n using Nat.strong_induction_on with
  | _ n ih =>
    rw [toDecimal]
    split
    · next h =>
      simp [digitsVal, List.foldl, digitVal_digitChar n h]
    · next h =>
      rw [digitsVal, List.foldl_append]
      rw [show List.foldl (fun a c => 10 * a + digitVal c) 0
        (toDecimal (n / 10)) = digitsVal (toDecimal (n / 10)) from rfl]
      rw [ih (n / 10) (Nat.div_lt_self (by omega) (by omega))]
      simp [List.foldl, digitVal_digitChar _ (Nat.mod_lt _ (by omega))]
      omega

theorem parse_value_some (l : List Nat) :
    parseUintArray (uintSliceValue (some l)) = some l := by
  cases l with
  | nil => decide
  | cons n ls =>
    have hne : (n :: ls).map toDecimal ≠ [] := by simp
    have hx : ∀ p ∈ (n :: ls).map toDecimal, ',' ∉ p := by
      intro p hp
      obtain ⟨m, -, rfl⟩ := List.mem_map.mp hp
      exact toDecimal_no_comma m
    have hsplit : ([','].intercalate ((n :: ls).map toDecimal)).splitOn ','
        = (n :: ls).map toDecimal := List.splitOn_intercalate _ ',' hx hne
    have hbody : [','].intercalate ((n :: ls).map toDecimal) ≠ [] := by
      intro h0
      rw [h0, List.splitOn_nil] at hsplit
      have : ([] : List Char) = toDecimal n := by
        have := congrArg List.head? hsplit
        simpa using this
      exact toDecimal_ne_nil n this.symm
    have hall : (((n :: ls).map toDecimal).all
        (fun p => !p.isEmpty && p.all isDigitChar)) = true := by
      rw [List.all_eq_true]
      intro p hp
      obtain ⟨m, -, rfl⟩ := List.mem_map.mp hp
      rw [Bool.and_eq_true, List.all_eq_true]
      refine ⟨?_, fun c hc => toDecimal_digits m c hc⟩
      simpa [List.isEmpty_iff] using toDecimal_ne_nil m
    simp only [uintSliceValue, parseUintArray, List.cons_append,
      List.head?_cons, List.tail_cons, List.getLast?_concat,
      List.dropLast_concat, eq_self_iff_true, if_true, hbody, if_false,
      hsplit, hall]
    congr 1
    rw [List.map_map]
    rw [show (digitsVal ∘ toDecimal) = id from funext digitsVal_toDecimal]
    exact List.map_id _

/-- C10 counterexample: the Value/Scan round-trip fails as stated for the nil
slice when the receiver already holds a value — `Value nil = null`, and Scan's
`json.Unmarshal(b, &a)` on `null` nils only the local pointer copy, leaving
the receiver `[7]` in place instead of producing nil. -/
theorem C10_counterexample :
    uintSliceScan (some [7]) (uintSliceValue none) ≠
      .ok (none : UintSlice) ∧
    uintSliceScan (some [7]) (uintSliceValue none) = .ok (some [7]) := by
  decide

/-- C10 (amended): the Value/Scan round-trip yields a slice equal to `a` for
every non-nil `a` regardless of the receiver's prior value; for the nil slice
Value produces `null`, which Scan leaves the receiver unchanged by, so the
round-trip yields `a` exactly when the receiver starts at its zero value
(nil). -/
theorem C10_value_scan_round_trip (a dest : UintSlice)
    (h : a ≠ none ∨ dest = none) :
    uintSliceScan dest (uintSliceValue a) = .ok a := by
  cases a with
  | none =>
    rcases h with h | h
    · exact absurd rfl h
    · subst h
      rfl
  | some l =>
    have hne : uintSliceValue (some l) ≠ ['n', 'u', 'l', 'l'] := by
      simp [uintSliceValue]
    rw [uintSliceScan, if_neg hne, parse_value_some]

theorem C10_value_scan_round_trip_witness :
    ((some [0, 12, 345] : UintSlice) ≠ none ∨ (some [9] : UintSlice) = none) ∧
    uintSliceScan (some [9]) (uintSliceValue (some [0, 12, 345])) =
      .ok (some [0, 12, 345]) :=
  ⟨Or.inl (by decide),
   C10_value_scan_round_trip (some [0, 12, 345]) (some [9])
     (Or.inl (by decide))⟩


end GoShop
